import Mathlib

/-!
Verification of `model.py` from the spikefinder repository.

The repository builds a Keras computation graph (`build_model`, `inception_cell`,
`conv_bn`), defines Pearson-correlation based metrics and loss (`pearson_corr`,
`pearson_loss`, `bin_percent`), assembles batches from an infinite generator
(`_grouper`), and runs `fit_generator` for a fixed number of epochs with
manually chosen class weights.

The layer graph is embedded as an inductive type `Tensor` of symbolic layer
applications, mirroring the Keras calls made in the source.  The numeric
functions are embedded over rational-valued tensors represented as nested
lists (`T3` for a `(batch, time, classes)` tensor), with real numbers used
exactly where the source uses `sqrt` and `exp`.
-/

/-- Symbolic tensors: each constructor records one Keras layer application
as written in `model.py`, together with the layer's configuration arguments. -/
inductive Tensor where
  | input : String → List ℕ → String → Tensor
  | conv1d : ℕ → ℕ → String → String → Tensor → Tensor
  | batchNorm : ℕ → ℤ → Tensor → Tensor
  | avgPool1d : ℕ → ℕ → String → Tensor → Tensor
  | mergeConcat4 : ℤ → Tensor → Tensor → Tensor → Tensor → Tensor
  | mergeConcat2 : ℤ → Tensor → Tensor → Tensor
  | repeatVector : ℕ → Tensor → Tensor
  | flatten : Tensor → Tensor
  | embedding : ℕ → ℕ → String → Tensor → Tensor
  | biLSTM : ℕ → Bool → Tensor → Tensor
  | tdDense : ℕ → String → String → Tensor → Tensor
deriving DecidableEq

/-- Translation of `conv_bn(x, nb_filter, filter_length)`:
`Convolution1D(nb_filter, filter_length, activation='relu', border_mode='same')`
followed by `BatchNormalization(axis=1)` (Keras default mode 0). -/
def conv_bn (x : Tensor) (nb_filter filter_length : ℕ) : Tensor :=
  Tensor.batchNorm 0 1 (Tensor.conv1d nb_filter filter_length "relu" "same" x)

/-- Translation of `inception_cell(x)`: four parallel branches merged with
`merge(..., mode='concat', concat_axis=-1)`. -/
def inception_cell (x : Tensor) : Tensor :=
  let branch1x1 := conv_bn x 64 1
  let branch5x5 := conv_bn (conv_bn x 48 1) 64 5
  let branch3x3dbl := conv_bn (conv_bn (conv_bn x 64 1) 96 3) 96 3
  let branch_pool := conv_bn (Tensor.avgPool1d 3 1 "same" x) 32 1
  Tensor.mergeConcat4 (-1) branch1x1 branch5x5 branch3x3dbl branch_pool

/-- A Keras `Model(input=..., output=...)`: the lists of input and output
tensors of the graph. -/
structure Model where
  inputs : List Tensor
  outputs : List Tensor
deriving DecidableEq

/-- Translation of `build_model(num_timesteps)` from `model.py`. -/
def build_model (num_timesteps : ℕ) : Model :=
  let dataset := Tensor.input "dataset" [1] "int32"
  let calcium := Tensor.input "calcium" [num_timesteps, 1] "float32"
  let flat := Tensor.flatten (Tensor.repeatVector num_timesteps dataset)
  let data_emb := Tensor.embedding 10 1 "orthogonal" flat
  let calcium_norm := Tensor.batchNorm 2 1 calcium
  let hidden0 := Tensor.mergeConcat2 (-1) calcium_norm data_emb
  let hidden1 := (List.range 3).foldl (fun h _ => inception_cell h) hidden0
  let hidden2 := Tensor.biLSTM 64 true hidden1
  let output := Tensor.tdDense 7 "softmax" "l2" hidden2
  { inputs := [dataset, calcium], outputs := [output] }

/-- Shape inference for the symbolic graph: given the batch size `B`, computes
the static output shape of a tensor, or `none` where the Keras rules would
reject the graph.  Shapes follow Keras semantics for each layer as configured
in the source (`border_mode='same'` convolutions preserve length, and so on). -/
def outShape (B : ℕ) : Tensor → Option (List ℕ)
  | Tensor.input _ s _ => some (B :: s)
  | Tensor.conv1d nb _ _ border x =>
      match outShape B x with
      | some [b, t, _] => if border = "same" then some [b, t, nb] else none
      | _ => none
  | Tensor.batchNorm _ _ x => outShape B x
  | Tensor.avgPool1d _ stride border x =>
      match outShape B x with
      | some [b, t, c] =>
          if border = "same" then some [b, (t + stride - 1) / stride, c] else none
      | _ => none
  | Tensor.mergeConcat4 ax a b c d =>
      match outShape B a, outShape B b, outShape B c, outShape B d with
      | some [b1, t1, c1], some [b2, t2, c2], some [b3, t3, c3], some [b4, t4, c4] =>
          if ax = -1 ∧ b1 = b2 ∧ b1 = b3 ∧ b1 = b4 ∧ t1 = t2 ∧ t1 = t3 ∧ t1 = t4
          then some [b1, t1, c1 + c2 + c3 + c4] else none
      | _, _, _, _ => none
  | Tensor.mergeConcat2 ax a b =>
      match outShape B a, outShape B b with
      | some [b1, t1, c1], some [b2, t2, c2] =>
          if ax = -1 ∧ b1 = b2 ∧ t1 = t2 then some [b1, t1, c1 + c2] else none
      | _, _ => none
  | Tensor.repeatVector n x =>
      match outShape B x with
      | some [b, f] => some [b, n, f]
      | _ => none
  | Tensor.flatten x =>
      match outShape B x with
      | some (b :: rest) => some [b, rest.prod]
      | _ => none
  | Tensor.embedding _ od _ x =>
      match outShape B x with
      | some [b, t] => some [b, t, od]
      | _ => none
  | Tensor.biLSTM u rs x =>
      match outShape B x with
      | some [b, t, _] => if rs then some [b, t, 2 * u] else some [b, 2 * u]
      | _ => none
  | Tensor.tdDense u _ _ x =>
      match outShape B x with
      | some [b, t, _] => some [b, t, u]
      | _ => none

/-- Number of `Bidirectional(LSTM(...))` layer applications in a tensor graph. -/
def countBiLSTM : Tensor → ℕ
  | Tensor.input _ _ _ => 0
  | Tensor.conv1d _ _ _ _ x => countBiLSTM x
  | Tensor.batchNorm _ _ x => countBiLSTM x
  | Tensor.avgPool1d _ _ _ x => countBiLSTM x
  | Tensor.mergeConcat4 _ a b c d =>
      countBiLSTM a + countBiLSTM b + countBiLSTM c + countBiLSTM d
  | Tensor.mergeConcat2 _ a b => countBiLSTM a + countBiLSTM b
  | Tensor.repeatVector _ x => countBiLSTM x
  | Tensor.flatten x => countBiLSTM x
  | Tensor.embedding _ _ _ x => countBiLSTM x
  | Tensor.biLSTM _ _ x => countBiLSTM x + 1
  | Tensor.tdDense _ _ _ x => countBiLSTM x

/-- Collects the `input_dim` argument of every `Embedding` layer in the graph. -/
def embeddingInputDims : Tensor → List ℕ
  | Tensor.input _ _ _ => []
  | Tensor.conv1d _ _ _ _ x => embeddingInputDims x
  | Tensor.batchNorm _ _ x => embeddingInputDims x
  | Tensor.avgPool1d _ _ _ x => embeddingInputDims x
  | Tensor.mergeConcat4 _ a b c d =>
      embeddingInputDims a ++ embeddingInputDims b ++
        embeddingInputDims c ++ embeddingInputDims d
  | Tensor.mergeConcat2 _ a b => embeddingInputDims a ++ embeddingInputDims b
  | Tensor.repeatVector _ x => embeddingInputDims x
  | Tensor.flatten x => embeddingInputDims x
  | Tensor.embedding idim _ _ x => embeddingInputDims x ++ [idim]
  | Tensor.biLSTM _ _ x => embeddingInputDims x
  | Tensor.tdDense _ _ _ x => embeddingInputDims x

/-- Names of the graph's declared `Input` layers, in order. -/
def inputNames (m : Model) : List String :=
  m.inputs.filterMap (fun t =>
    match t with
    | Tensor.input n _ _ => some n
    | _ => none)

/-- Kernel sizes of the convolution chain a tensor was produced by, innermost
first; stops at the first layer that is neither a convolution nor a batch
normalization. -/
def convKernels : Tensor → List ℕ
  | Tensor.conv1d _ k _ _ x => convKernels x ++ [k]
  | Tensor.batchNorm _ _ x => convKernels x
  | _ => []

/-- Softmax over the 7 output units of the time-distributed dense layer
`Dense(7, activation='softmax')`, applied to one timestep's pre-activations. -/
noncomputable def softmax7 (z : Fin 7 → ℝ) : Fin 7 → ℝ :=
  fun i => Real.exp (z i) / ∑ j, Real.exp (z j)

/-- A `(batch, time, classes)` tensor of rational values, as nested lists. -/
abbrev T3 := List (List (List ℚ))

/-- Index of the first maximal element seen so far: `i` is the index of the
next element, `bi` and `bv` the best index and value so far. -/
def argmaxAux : ℕ → ℕ → ℚ → List ℚ → ℕ
  | _, bi, _, [] => bi
  | i, bi, bv, x :: xs =>
      if bv < x then argmaxAux (i + 1) i x xs else argmaxAux (i + 1) bi bv xs

/-- Index of the first maximal element of a list, 0 for the empty list; this
is `argmax` over the last axis as computed by `K.argmax`/numpy. -/
def argmaxQ : List ℚ → ℕ
  | [] => 0
  | x :: xs => argmaxAux 1 0 x xs

/-- Translation of `K.argmax(y, axis=-1)` on a `(batch, time, classes)`
tensor: the per-timestep argmax, a `(batch, time)` integer tensor. -/
def argmax2 (y : T3) : List (List ℕ) :=
  y.map (fun s => s.map argmaxQ)

/-- Translation of `K.cast(K.argmax(y, axis=-1), 'float32')`: the per-timestep
argmax labels as a numeric `(batch, time)` tensor. -/
def labels (y : T3) : List (List ℚ) :=
  (argmax2 y).map (fun r => r.map (fun n => (n : ℚ)))

/-- Translation of `K.mean` on a flat list of values (0 for the empty list,
where Keras would produce NaN). -/
def meanQ (l : List ℚ) : ℚ := l.sum / l.length

/-- Mean of a list of reals, as applied by `K.mean` to the final per-sample
ratios. -/
noncomputable def meanR (l : List ℝ) : ℝ := l.sum / l.length

/-- The constant `1e-12` added to the square-rooted denominators. -/
noncomputable def eps : ℝ := 1 / 10 ^ 12

/-- Translation of `K.sum(x * y, axis=-1)` on one row: the dot product. -/
def dotQ (a b : List ℚ) : ℚ := (List.zipWith (fun p q => p * q) a b).sum

/-- Translation of `K.sum(K.square(x), axis=-1)` on one row. -/
def sqSum (a : List ℚ) : ℚ := (a.map (fun p => p * p)).sum

/-- The centered label tensor of `pearson_corr`:
`y - K.mean(y)` applied to the `(batch, time)` label tensor `labels y`,
where `K.mean` averages over the whole tensor. -/
def ctrLabels (y : T3) : List (List ℚ) :=
  (labels y).map (fun r => r.map (fun a => a - meanQ (labels y).flatten))

/-- The numerator tensor `n = K.sum(x_mean * y_mean, axis=-1)` of
`pearson_corr`, one entry per sample. -/
def corrN (yt yp : T3) : List ℚ :=
  List.zipWith dotQ (ctrLabels yt) (ctrLabels yp)

/-- The denominator tensor
`d = K.sum(K.square(x_mean), axis=-1) * K.sum(K.square(y_mean), axis=-1)` of
`pearson_corr`, one entry per sample. -/
def corrD (yt yp : T3) : List ℚ :=
  List.zipWith (fun a b => sqSum a * sqSum b) (ctrLabels yt) (ctrLabels yp)

/-- Translation of the metric `pearson_corr(y_true, y_pred)` from `model.py`:
`K.mean(n / (K.sqrt(d) + 1e-12))`. -/
noncomputable def pearson_corr (yt yp : T3) : ℝ :=
  meanR (List.zipWith (fun (n d : ℚ) => (n : ℝ) / (Real.sqrt (d : ℝ) + eps))
    (corrN yt yp) (corrD yt yp))

/-- The scalar `K.mean(K.cast(K.argmax(y, axis=-1), 'float32'))` used by
`pearson_loss` to center the raw tensors. -/
def lossMu (y : T3) : ℚ := meanQ (labels y).flatten

/-- The centered 3-d tensor `x_mean = y - K.mean(cast(argmax(y)))` of
`pearson_loss`: note the raw probability tensor is shifted by the mean of its
argmax labels, not by its own mean. -/
def ctr3 (y : T3) : T3 :=
  y.map (fun s => s.map (fun r => r.map (fun a => a - lossMu y)))

/-- Translation of `K.sum(K.sum(x * y, axis=-1), axis=-1)` on one sample. -/
def dot2 (s1 s2 : List (List ℚ)) : ℚ := (List.zipWith dotQ s1 s2).sum

/-- Translation of `K.sum(K.sum(K.square(x), axis=2), axis=1)` on one sample. -/
def sqSum2 (s : List (List ℚ)) : ℚ := (s.map sqSum).sum

/-- The numerator tensor of `pearson_loss`, one entry per sample. -/
def lossN (yt yp : T3) : List ℚ :=
  List.zipWith dot2 (ctr3 yt) (ctr3 yp)

/-- The denominator tensor of `pearson_loss`, one entry per sample. -/
def lossD (yt yp : T3) : List ℚ :=
  List.zipWith (fun a b => sqSum2 a * sqSum2 b) (ctr3 yt) (ctr3 yp)

/-- Translation of the loss `pearson_loss(y_true, y_pred)` from `model.py`:
`-K.mean(n / (K.sqrt(d) + 1e-12))`. -/
noncomputable def pearson_loss (yt yp : T3) : ℝ :=
  -(meanR (List.zipWith (fun (n d : ℚ) => (n : ℝ) / (Real.sqrt (d : ℝ) + eps))
    (lossN yt yp) (lossD yt yp)))

/-- The value `K.mean(K.equal(K.argmax(y_pred, axis=-1), i))` computed by the
metric returned by `bin_percent(i)`. -/
def binFrac (i : ℕ) (yp : T3) : ℚ :=
  meanQ ((argmax2 yp).flatten.map (fun p => if p = i then (1 : ℚ) else 0))

/-- Translation of `bin_percent(i)` from `model.py`: a metric function that
ignores `y_true` and reports `{str(i): K.mean(K.equal(argmax(y_pred), i))}`. -/
def bin_percent (i : ℕ) : T3 → T3 → List (String × ℚ) :=
  fun _ yp => [(toString i, binFrac i yp)]

/-- Translation of
`class_weights = dict((str(i), 1 / (2 ** (7 - i))) for i in range(7))`
(true division, as the module imports `division` from `__future__`). -/
def class_weights : List (String × ℚ) :=
  (List.range 7).map (fun i => (toString i, 1 / 2 ^ (7 - i)))

/-- Constant `num_timesteps = 100` from the training driver. -/
def num_timesteps : ℕ := 100

/-- Constant `batches_per_epoch = 1000` from the training driver. -/
def batches_per_epoch : ℕ := 1000

/-- Constant `nb_epoch = 10` from the training driver. -/
def nb_epoch : ℕ := 10

/-- Constant `batch_size = 32` from the training driver. -/
def batch_size : ℕ := 32

/-- Constant `samples_per_epoch = batches_per_epoch * batch_size` as passed to
`model.fit_generator`. -/
def samples_per_epoch : ℕ := batches_per_epoch * batch_size

/-- The arguments of the `model.compile(...)` call in `model.py`. -/
structure CompileArgs where
  optimizer : String
  loss : T3 → T3 → ℝ
  metric_corr : T3 → T3 → ℝ
  metric_bins : List (T3 → T3 → List (String × ℚ))
  class_weights : List (String × ℚ)

/-- Translation of the `model.compile(optimizer='adam', loss=pearson_loss,
metrics=[pearson_corr] + [bin_percent(i) for i in range(7)],
class_weights=class_weights)` call. -/
noncomputable def compile_call : CompileArgs :=
  { optimizer := "adam"
    loss := pearson_loss
    metric_corr := pearson_corr
    metric_bins := (List.range 7).map bin_percent
    class_weights := class_weights }

/-- The 32 consecutive draws `(iterable.next() for _ in xrange(batch_size))`
that `_grouper` takes from `utils.generate_training_set` for its `k`-th batch;
the external generator is modelled as a stream `gen` of
(dataset id, calcium reading, spike count) tuples, of which the first
`32 * k` have already been consumed by earlier batches. -/
def grouperChunk {α β γ : Type} (gen : ℕ → α × β × γ) (k : ℕ) :
    List (α × β × γ) :=
  (List.range batch_size).map (fun j => gen (batch_size * k + j))

/-- Translation of the body of `_grouper`: `zip(*...)` transposes the 32
tuples and the yielded value pairs the two input arrays with the one target
array: `([batched[0], batched[1]], [batched[2]])`. -/
def grouper {α β γ : Type} (gen : ℕ → α × β × γ) (k : ℕ) :
    (List α × List β) × List γ :=
  let batched := grouperChunk gen k
  ((batched.map (fun x => x.1), batched.map (fun x => x.2.1)),
    batched.map (fun x => x.2.2))

/-- The stream positions consumed by the `k`-th batch of `_grouper`. -/
def grouperIndices (k : ℕ) : List ℕ :=
  List.range' (batch_size * k) batch_size

/-- Modelled from the spec: `Model.fit_generator` is Keras framework code not
present in this repository; per the spec the training driver "invokes the
framework's batch-fit loop for a fixed number of epochs", so the fit loop is
modelled as pulling `samples_per_epoch / batch_size` generator batches per
epoch, for `nb_epoch` epochs, after which it returns (training terminates). -/
def fit_generator {β : Type} (gen : ℕ → β) (spe ne : ℕ) : List (List β) :=
  (List.range ne).map (fun e =>
    (List.range (spe / batch_size)).map (fun b =>
      gen (e * (spe / batch_size) + b)))

/-- Lookup semantics of a Keras `Embedding(input_dim, ...)` layer: a table
with rows `0 .. input_dim - 1`; an id outside that range is an out-of-range
lookup and yields no value. -/
def embeddingLookup {α : Type} (input_dim : ℕ) (table : ℕ → α) (id : ℤ) :
    Option α :=
  if 0 ≤ id ∧ id < input_dim then some (table id.toNat) else none

/-- Formalisation of the claim C3 formula for `pearson_corr`, assembled from
its written description: the label sequences are the per-timestep argmaxes;
the statistic is the mean over samples of the centered cross-product sum
divided by the square root of the product of the centered square sums plus
`1e-12`; centering subtracts the mean of the respective label tensor. -/
noncomputable def specPearsonCorr (yt yp : T3) : ℝ :=
  meanR (((labels yt).zip (labels yp)).map (fun p =>
    (((List.zipWith (fun a b =>
        (a - meanQ (labels yt).flatten) * (b - meanQ (labels yp).flatten))
        p.1 p.2).sum : ℚ) : ℝ) /
      (Real.sqrt ((((p.1.map (fun a => (a - meanQ (labels yt).flatten) ^ 2)).sum
        * (p.2.map (fun b => (b - meanQ (labels yp).flatten) ^ 2)).sum : ℚ) : ℝ))
        + eps)))

/-- Formalisation of claim C4 as stated: the negation of the Pearson
correlation between the true and predicted tensors, each centered by its own
mean, aggregated per sample exactly as `pearson_loss` aggregates its ratios
(including the `1e-12` guard). -/
noncomputable def claimNegPearson (yt yp : T3) : ℝ :=
  -(meanR ((yt.zip yp).map (fun p =>
    (((List.zipWith (fun r1 r2 => (List.zipWith (fun a b =>
        (a - meanQ yt.flatten.flatten) * (b - meanQ yp.flatten.flatten))
        r1 r2).sum) p.1 p.2).sum : ℚ) : ℝ) /
      (Real.sqrt ((((p.1.map (fun r => (r.map (fun a =>
          (a - meanQ yt.flatten.flatten) ^ 2)).sum)).sum
        * (p.2.map (fun r => (r.map (fun b =>
          (b - meanQ yp.flatten.flatten) ^ 2)).sum)).sum : ℚ) : ℝ))
        + eps))))

/-- The corrected description of `pearson_loss` (claim C4 amended): the same
Pearson-style ratio, but each raw tensor is centered by the mean of its
argmax label sequence (`lossMu`), not by its own mean; negated and averaged
over samples. -/
noncomputable def specPearsonLoss (yt yp : T3) : ℝ :=
  -(meanR ((yt.zip yp).map (fun p =>
    (((List.zipWith (fun r1 r2 => (List.zipWith (fun a b =>
        (a - lossMu yt) * (b - lossMu yp)) r1 r2).sum) p.1 p.2).sum : ℚ) : ℝ) /
      (Real.sqrt ((((p.1.map (fun r =>
          (r.map (fun a => (a - lossMu yt) ^ 2)).sum)).sum
        * (p.2.map (fun r =>
          (r.map (fun b => (b - lossMu yp) ^ 2)).sum)).sum : ℚ) : ℝ))
        + eps))))

/-- Claim C1: `build_model` returns a model with exactly the two named inputs
`dataset` and `calcium` and one output; the topology is fixed for every
`num_timesteps`: three applications of `inception_cell` after the concat of the
normalized calcium channel and the dataset embedding, then one bidirectional
LSTM, then a time-distributed dense softmax layer with 7 classes; each
inception cell concatenates, along the channel axis (-1), four parallel
branches with kernel-size chains [1], [1, 5], [1, 3, 3] and an
average-pooled branch followed by a size-1 convolution. -/
theorem build_model_topology (T : ℕ) :
    inputNames (build_model T) = ["dataset", "calcium"] ∧
    (build_model T).inputs.length = 2 ∧
    (build_model T).outputs.length = 1 ∧
    (build_model T).outputs =
      [Tensor.tdDense 7 "softmax" "l2" (Tensor.biLSTM 64 true
        (inception_cell (inception_cell (inception_cell
          (Tensor.mergeConcat2 (-1)
            (Tensor.batchNorm 2 1 (Tensor.input "calcium" [T, 1] "float32"))
            (Tensor.embedding 10 1 "orthogonal" (Tensor.flatten
              (Tensor.repeatVector T (Tensor.input "dataset" [1] "int32")))))))))] ∧
    (build_model T).outputs.map countBiLSTM = [1] ∧
    (∀ x, inception_cell x = Tensor.mergeConcat4 (-1)
        (conv_bn x 64 1)
        (conv_bn (conv_bn x 48 1) 64 5)
        (conv_bn (conv_bn (conv_bn x 64 1) 96 3) 96 3)
        (conv_bn (Tensor.avgPool1d 3 1 "same" x) 32 1)) ∧
    (∀ x, convKernels (conv_bn x 64 1) = convKernels x ++ [1] ∧
        convKernels (conv_bn (conv_bn x 48 1) 64 5) = convKernels x ++ [1, 5] ∧
        convKernels (conv_bn (conv_bn (conv_bn x 64 1) 96 3) 96 3)
          = convKernels x ++ [1, 3, 3] ∧
        convKernels (conv_bn (Tensor.avgPool1d 3 1 "same" x) 32 1) = [1]) := by
  refine ⟨rfl, rfl, rfl, rfl, by rfl, fun x => rfl, fun x => ⟨rfl, ?_, ?_, rfl⟩⟩
  · simp [conv_bn, convKernels]
  · simp [conv_bn, convKernels]

/-- Shape rule for `conv_bn`: a same-bordered convolution with `nb` filters
keeps the batch and time dimensions and sets the channel dimension to `nb`;
batch normalization keeps the shape. -/
theorem outShape_conv_bn {B b t c nb k : ℕ} {x : Tensor}
    (h : outShape B x = some [b, t, c]) :
    outShape B (conv_bn x nb k) = some [b, t, nb] := by
  simp [conv_bn, outShape, h]

/-- Shape rule for the pooled branch: average pooling with stride 1 and same
border keeps the shape. -/
theorem outShape_avgPool {B b t c : ℕ} {x : Tensor}
    (h : outShape B x = some [b, t, c]) :
    outShape B (Tensor.avgPool1d 3 1 "same" x) = some [b, t, c] := by
  simp [outShape, h]

/-- Shape rule for `inception_cell`: the four branches produce 64, 64, 96 and
32 channels and their concatenation has 256 channels. -/
theorem outShape_inception {B b t c : ℕ} {x : Tensor}
    (h : outShape B x = some [b, t, c]) :
    outShape B (inception_cell x) = some [b, t, 256] := by
  have h1 : outShape B (conv_bn x 64 1) = some [b, t, 64] := outShape_conv_bn h
  have h5 : outShape B (conv_bn (conv_bn x 48 1) 64 5) = some [b, t, 64] :=
    outShape_conv_bn (outShape_conv_bn h)
  have h3 : outShape B (conv_bn (conv_bn (conv_bn x 64 1) 96 3) 96 3)
      = some [b, t, 96] :=
    outShape_conv_bn (outShape_conv_bn (outShape_conv_bn h))
  have hp : outShape B (conv_bn (Tensor.avgPool1d 3 1 "same" x) 32 1)
      = some [b, t, 32] :=
    outShape_conv_bn (outShape_avgPool h)
  simp [inception_cell, conv_bn, outShape, h]

/-- Claim C2: the model's single output has static shape
`(batch, timesteps, 7)`, and the output layer's softmax yields, at every
timestep, 7 nonnegative values summing to 1. -/
theorem model_output_shape_softmax :
    (∀ B T : ℕ, (build_model T).outputs.map (outShape B) = [some [B, T, 7]]) ∧
    (∀ z : Fin 7 → ℝ, (∀ i, 0 ≤ softmax7 z i) ∧ (∑ i, softmax7 z i) = 1) := by
  constructor
  · intro B T
    have hca : outShape B (Tensor.batchNorm 2 1 (Tensor.input "calcium" [T, 1] "float32"))
        = some [B, T, 1] := by simp [outShape]
    have hem : outShape B (Tensor.embedding 10 1 "orthogonal" (Tensor.flatten
        (Tensor.repeatVector T (Tensor.input "dataset" [1] "int32"))))
        = some [B, T, 1] := by simp [outShape]
    have hm : outShape B (Tensor.mergeConcat2 (-1)
        (Tensor.batchNorm 2 1 (Tensor.input "calcium" [T, 1] "float32"))
        (Tensor.embedding 10 1 "orthogonal" (Tensor.flatten
          (Tensor.repeatVector T (Tensor.input "dataset" [1] "int32")))))
        = some [B, T, 2] := by
      simp [outShape, hca, hem]
    have hi3 := outShape_inception (outShape_inception (outShape_inception hm))
    show [outShape B (Tensor.tdDense 7 "softmax" "l2" (Tensor.biLSTM 64 true
        (inception_cell (inception_cell (inception_cell
          (Tensor.mergeConcat2 (-1)
            (Tensor.batchNorm 2 1 (Tensor.input "calcium" [T, 1] "float32"))
            (Tensor.embedding 10 1 "orthogonal" (Tensor.flatten
              (Tensor.repeatVector T (Tensor.input "dataset" [1] "int32"))))))))))]
        = [some [B, T, 7]]
    have hl : outShape B (Tensor.biLSTM 64 true
        (inception_cell (inception_cell (inception_cell
          (Tensor.mergeConcat2 (-1)
            (Tensor.batchNorm 2 1 (Tensor.input "calcium" [T, 1] "float32"))
            (Tensor.embedding 10 1 "orthogonal" (Tensor.flatten
              (Tensor.repeatVector T (Tensor.input "dataset" [1] "int32")))))))))
        = some [B, T, 128] := by
      simp [outShape, hi3]
    simp [outShape, hl]
  · intro z
    have hS : 0 < ∑ j, Real.exp (z j) :=
      Finset.sum_pos (fun j _ => Real.exp_pos (z j)) Finset.univ_nonempty
    constructor
    · intro i
      exact le_of_lt (div_pos (Real.exp_pos (z i)) hS)
    · simp only [softmax7]
      rw [← Finset.sum_div]
      exact div_self (ne_of_gt hS)

/-- Claim C5: the class weights are `str(i) ↦ 1 / 2^(7-i)` for `i = 0..6`,
strictly increasing from 1/128 to 1/2, and this mapping is the
`class_weights` argument of the `model.compile` call. -/
theorem class_weights_spec :
    class_weights =
      [("0", (1 : ℚ)/128), ("1", 1/64), ("2", 1/32), ("3", 1/16),
       ("4", 1/8), ("5", 1/4), ("6", 1/2)] ∧
    List.Sorted (· < ·) (class_weights.map Prod.snd) ∧
    compile_call.class_weights = class_weights := by
  refine ⟨?_, ?_, rfl⟩
  · simp [class_weights, List.range_succ]
    norm_num
    decide
  · simp [class_weights, List.range_succ, List.Sorted]
    norm_num

/-- Claim C6: training runs the batch-fit loop for a fixed horizon: exactly
`nb_epoch = 10` epochs of `samples_per_epoch = 1000 * 32 = 32000` samples,
i.e. 1000 generator batches per epoch, after which `fit_generator` returns
(the run is a finite list of epochs, so training terminates). -/
theorem fit_generator_fixed_epochs :
    samples_per_epoch = 1000 * 32 ∧
    samples_per_epoch = 32000 ∧
    nb_epoch = 10 ∧
    samples_per_epoch / batch_size = 1000 ∧
    (∀ {β : Type} (gen : ℕ → β),
      (fit_generator gen samples_per_epoch nb_epoch).length = 10 ∧
      (fit_generator gen samples_per_epoch nb_epoch).map List.length
        = List.replicate 10 1000) := by
  refine ⟨rfl, rfl, rfl, rfl, fun gen => ⟨by simp [fit_generator, nb_epoch], ?_⟩⟩
  have h : samples_per_epoch / batch_size = 1000 := rfl
  rw [List.eq_replicate_iff]
  constructor
  · simp [fit_generator, nb_epoch]
  · intro b hb
    simp only [fit_generator, h, List.map_map, List.mem_map, Function.comp] at hb
    obtain ⟨e, _, he⟩ := hb
    simp at he
    omega

/-- Claim C7: the `k`-th batch of `_grouper` consists of exactly
`batch_size = 32` consecutive tuples drawn in order from the generator stream
(positions `32*k` to `32*k + 31`), transposed into the pair of the
two-element input list (dataset ids, calcium series) and the one-element
target list (spike counts); distinct batches consume disjoint stream
positions, so no tuple is dropped, reordered or reused. -/
theorem grouper_batches :
    (∀ {α β γ : Type} (gen : ℕ → α × β × γ) (k : ℕ),
      (grouperChunk gen k).length = 32 ∧
      grouperIndices k = List.range' (32 * k) 32 ∧
      grouperChunk gen k = (grouperIndices k).map gen ∧
      grouper gen k =
        (((grouperChunk gen k).map (fun x => x.1),
          (grouperChunk gen k).map (fun x => x.2.1)),
          (grouperChunk gen k).map (fun x => x.2.2))) ∧
    (∀ k k' : ℕ, k ≠ k' → ∀ i ∈ grouperIndices k, i ∉ grouperIndices k') := by
  constructor
  · intro α β γ gen k
    refine ⟨by simp [grouperChunk, batch_size], rfl, ?_, rfl⟩
    rw [grouperIndices, List.range'_eq_map_range, List.map_map]
    rfl
  · intro k k' hne i hk hk'
    rw [grouperIndices, List.mem_range'_1] at hk hk'
    rw [batch_size] at hk hk'
    omega

/-- Witness for C7 at concrete inputs: batches 0 and 1 are distinct, stream
position 5 belongs to batch 0, and by the theorem it is not reused by
batch 1. -/
theorem grouper_batches_witness :
    (0 : ℕ) ≠ 1 ∧ (5 : ℕ) ∈ grouperIndices 0 ∧ (5 : ℕ) ∉ grouperIndices 1 :=
  ⟨by decide, by decide, grouper_batches.2 0 1 (by decide) 5 (by decide)⟩

/-- Claim C9: the only embedding in the model has `input_dim = 10`, and an
embedding lookup with `input_dim = 10` is defined exactly for dataset ids in
`0 .. 9`; ids that are negative or at least 10 are out-of-range lookups. -/
theorem embeddingInputDims_inception (x : Tensor) :
    embeddingInputDims (inception_cell x)
      = embeddingInputDims x ++ embeddingInputDims x ++
        embeddingInputDims x ++ embeddingInputDims x := by
  simp [inception_cell, conv_bn, embeddingInputDims]

/-- Claim C9: every embedding in the model has `input_dim = 10` (the dataset
id is looked up in a table with rows `0..9`), and an embedding lookup with
`input_dim = 10` is defined exactly for ids in `0..9`; ids that are negative
or at least 10 are out-of-range lookups. -/
theorem embedding_dataset_range :
    (∀ T : ℕ, ∀ out ∈ (build_model T).outputs,
      10 ∈ embeddingInputDims out ∧ ∀ d ∈ embeddingInputDims out, d = 10) ∧
    (∀ (table : ℕ → List ℚ) (id : ℤ),
      (embeddingLookup 10 table id).isSome ↔ 0 ≤ id ∧ id < 10) := by
  constructor
  · intro T out hout
    have houts : (build_model T).outputs =
        [Tensor.tdDense 7 "softmax" "l2" (Tensor.biLSTM 64 true
          (inception_cell (inception_cell (inception_cell
            (Tensor.mergeConcat2 (-1)
              (Tensor.batchNorm 2 1 (Tensor.input "calcium" [T, 1] "float32"))
              (Tensor.embedding 10 1 "orthogonal" (Tensor.flatten
                (Tensor.repeatVector T
                  (Tensor.input "dataset" [1] "int32")))))))))] := rfl
    rw [houts] at hout
    rw [List.mem_singleton] at hout
    subst hout
    have hbase : embeddingInputDims (Tensor.mergeConcat2 (-1)
        (Tensor.batchNorm 2 1 (Tensor.input "calcium" [T, 1] "float32"))
        (Tensor.embedding 10 1 "orthogonal" (Tensor.flatten
          (Tensor.repeatVector T (Tensor.input "dataset" [1] "int32")))))
        = [10] := rfl
    simp only [embeddingInputDims, embeddingInputDims_inception, hbase]
    simp
  · intro table id
    constructor
    · intro hs
      by_contra hc
      have hnone : embeddingLookup 10 table id = none := by
        rw [embeddingLookup, if_neg]
        intro hand
        exact hc (by exact_mod_cast hand)
      rw [hnone] at hs
      simp at hs
    · intro hand
      have hsome : embeddingLookup 10 table id = some (table id.toNat) := by
        rw [embeddingLookup, if_pos]
        exact_mod_cast hand
      rw [hsome]
      rfl

/-- Witness for C9 at a concrete input: in the model built for 4 timesteps,
the output graph's embedding dimensions are all 10, and the lookup of id 3 in
an embedding of input dimension 10 succeeds while the lookup of id 10 fails. -/
theorem embedding_dataset_range_witness :
    10 ∈ embeddingInputDims (Tensor.tdDense 7 "softmax" "l2" (Tensor.biLSTM 64
      true (inception_cell (inception_cell (inception_cell
        (Tensor.mergeConcat2 (-1)
          (Tensor.batchNorm 2 1 (Tensor.input "calcium" [4, 1] "float32"))
          (Tensor.embedding 10 1 "orthogonal" (Tensor.flatten
            (Tensor.repeatVector 4 (Tensor.input "dataset" [1] "int32")))))))))) :=
  (embedding_dataset_range.1 4 _ (by exact List.mem_singleton.mpr rfl)).1

/-- Helper: a property holding of `f a b` for all `a`, `b` holds of every
element of `List.zipWith f A B`. -/
theorem mem_zipWith_imp {α β : Type} {f : α → β → ℚ} {P : ℚ → Prop}
    (hf : ∀ a b, P (f a b)) :
    ∀ (A : List α) (B : List β), ∀ q ∈ List.zipWith f A B, P q := by
  intro A
  induction A with
  | nil => intro B q hq; simp at hq
  | cons a A ih =>
      intro B q hq
      cases B with
      | nil => simp at hq
      | cons b B =>
          rw [List.zipWith_cons_cons] at hq
          rcases List.mem_cons.mp hq with h | h
          · exact h ▸ hf a b
          · exact ih B q h

/-- Helper: a sum of elementwise squares is nonnegative. -/
theorem sqSum_nonneg (a : List ℚ) : 0 ≤ sqSum a := by
  apply List.sum_nonneg
  intro x hx
  obtain ⟨p, _, rfl⟩ := List.mem_map.mp hx
  exact mul_self_nonneg p

/-- Helper: a sum of rowwise sums of squares is nonnegative. -/
theorem sqSum2_nonneg (s : List (List ℚ)) : 0 ≤ sqSum2 s := by
  apply List.sum_nonneg
  intro x hx
  obtain ⟨r, _, rfl⟩ := List.mem_map.mp hx
  exact sqSum_nonneg r

/-- Helper: the constant `1e-12` is positive. -/
theorem eps_pos : (0 : ℝ) < eps := by
  rw [eps]; norm_num

/-- Claim C8: in both `pearson_corr` and `pearson_loss` every per-sample
denominator entry `d` is a product of sums of squares, hence nonnegative, and
the divisor `sqrt(d) + 1e-12` is strictly positive, so no division by zero
occurs even for constant (zero-variance) sequences. -/
theorem pearson_denominators_pos (yt yp : T3) :
    (∀ q ∈ corrD yt yp, 0 ≤ q ∧ (0 : ℝ) < Real.sqrt (q : ℝ) + eps) ∧
    (∀ q ∈ lossD yt yp, 0 ≤ q ∧ (0 : ℝ) < Real.sqrt (q : ℝ) + eps) := by
  constructor
  · exact mem_zipWith_imp (fun a b =>
      ⟨mul_nonneg (sqSum_nonneg a) (sqSum_nonneg b),
       add_pos_of_nonneg_of_pos (Real.sqrt_nonneg _) eps_pos⟩) _ _
  · exact mem_zipWith_imp (fun a b =>
      ⟨mul_nonneg (sqSum2_nonneg a) (sqSum2_nonneg b),
       add_pos_of_nonneg_of_pos (Real.sqrt_nonneg _) eps_pos⟩) _ _

/-- Witness for C8 at a concrete input: the denominator entry of the batch
`y_true = [[[1]]], y_pred = [[[2]]]` is `0`, is nonnegative, and its divisor
`sqrt(0) + 1e-12` is strictly positive. -/
theorem pearson_denominators_pos_witness :
    (0 : ℚ) ≤ 0 ∧ (0 : ℝ) < Real.sqrt ((0 : ℚ) : ℝ) + eps :=
  (pearson_denominators_pos [[[1]]] [[[2]]]).1 0
    (by norm_num [corrD, ctrLabels, labels, argmax2, argmaxQ, argmaxAux,
      meanQ, sqSum])

/-- Helper: `argmaxAux` returns either the running best index (smaller than
`n`) or the index of some later element, all of which are smaller than `n`. -/
theorem argmaxAux_lt {n : ℕ} :
    ∀ (l : List ℚ) (i bi : ℕ) (bv : ℚ), bi < n → i + l.length ≤ n →
      argmaxAux i bi bv l < n := by
  intro l
  induction l with
  | nil =>
      intro i bi bv hbi _
      simpa [argmaxAux] using hbi
  | cons x xs ih =>
      intro i bi bv hbi hlen
      simp only [List.length_cons] at hlen
      rw [argmaxAux]
      split
      · exact ih (i + 1) i x (by omega) (by omega)
      · exact ih (i + 1) bi bv hbi (by omega)

/-- Helper: the argmax of a list of length at most `n > 0` is smaller
than `n`. -/
theorem argmaxQ_lt (v : List ℚ) {n : ℕ} (hn : 0 < n) (hv : v.length ≤ n) :
    argmaxQ v < n := by
  cases v with
  | nil => simpa [argmaxQ] using hn
  | cons x xs =>
      rw [argmaxQ]
      exact argmaxAux_lt xs 1 0 x hn (by simp at hv; omega)

/-- Helper: the sum of the 0/1 indicators of `p = i` equals the count of `i`. -/
theorem indicator_sum_count (i : ℕ) (l : List ℕ) :
    (l.map (fun p => if p = i then (1 : ℚ) else 0)).sum = l.count i := by
  induction l with
  | nil => simp
  | cons x xs ih =>
      rw [List.map_cons, List.sum_cons, ih, List.count_cons]
      by_cases h : x = i
      · simp [h, add_comm]
      · simp [h]

/-- Helper: the partition property of the seven bins: when every label is
below 7, the per-bin counts add up to the number of labels. -/
theorem count_partition (l : List ℕ) (h7 : ∀ x ∈ l, x < 7) :
    (∑ i ∈ Finset.range 7, ((l.count i : ℚ))) = l.length := by
  induction l with
  | nil => simp
  | cons x xs ih =>
      have hx : x ∈ Finset.range 7 :=
        Finset.mem_range.mpr (h7 x (List.mem_cons_self x xs))
      have ih2 := ih (fun y hy => h7 y (List.mem_cons_of_mem x hy))
      simp only [List.count_cons]
      push_cast
      rw [Finset.sum_add_distrib, ih2]
      have hsum : (∑ i ∈ Finset.range 7,
          (if x = i then (1 : ℚ) else 0)) = 1 := by
        rw [Finset.sum_ite_eq]
        simp [hx]
      simp only [beq_iff_eq, hsum]
      simp

/-- Claim C10: each `bin_percent(i)` metric reports the fraction of timestep
predictions whose argmax is `i`; the fraction lies in `[0, 1]`, and over the
seven bins the fractions sum to exactly 1 whenever the prediction tensor is
nonempty with 7 classes per timestep, because every argmax falls into exactly
one bin. -/
theorem bin_percent_partition (yp : T3)
    (h7 : ∀ s ∈ yp, ∀ v ∈ s, v.length = 7)
    (hne : (argmax2 yp).flatten ≠ []) :
    (∀ yt i, bin_percent i yt yp = [(toString i, binFrac i yp)]) ∧
    (∀ i, 0 ≤ binFrac i yp ∧ binFrac i yp ≤ 1) ∧
    (∀ i, binFrac i yp
      = ((argmax2 yp).flatten.count i : ℚ) / ((argmax2 yp).flatten.length : ℚ)) ∧
    (∑ i ∈ Finset.range 7, binFrac i yp) = 1 := by
  have hmem7 : ∀ x ∈ (argmax2 yp).flatten, x < 7 := by
    intro x hx
    rw [List.mem_flatten] at hx
    obtain ⟨r, hr, hxr⟩ := hx
    rw [argmax2, List.mem_map] at hr
    obtain ⟨s, hs, rfl⟩ := hr
    rw [List.mem_map] at hxr
    obtain ⟨v, hv, rfl⟩ := hxr
    exact argmaxQ_lt v (by norm_num) (le_of_eq (h7 s hs v hv))
  have hfrac : ∀ i, binFrac i yp
      = ((argmax2 yp).flatten.count i : ℚ) / ((argmax2 yp).flatten.length : ℚ) := by
    intro i
    rw [binFrac, meanQ, indicator_sum_count, List.length_map]
  have hlenpos : 0 < ((argmax2 yp).flatten.length : ℚ) := by
    have := List.length_pos.mpr hne
    exact_mod_cast this
  refine ⟨fun yt i => rfl, ?_, hfrac, ?_⟩
  · intro i
    rw [hfrac]
    constructor
    · apply div_nonneg
      · exact_mod_cast Nat.zero_le _
      · exact_mod_cast Nat.zero_le _
    · rw [div_le_one hlenpos]
      exact_mod_cast List.count_le_length i (argmax2 yp).flatten
  · have : (∑ i ∈ Finset.range 7, binFrac i yp)
        = (∑ i ∈ Finset.range 7, ((argmax2 yp).flatten.count i : ℚ))
          / ((argmax2 yp).flatten.length : ℚ) := by
      rw [Finset.sum_div]
      exact Finset.sum_congr rfl (fun i _ => hfrac i)
    rw [this, count_partition _ hmem7]
    exact div_self (ne_of_gt hlenpos)

/-- Witness for C10 at a concrete input: for the two-timestep prediction
tensor with argmaxes 6 and 0, the seven bin fractions sum to 1. -/
theorem bin_percent_partition_witness :
    (∑ i ∈ Finset.range 7,
      binFrac i [[[0, 0, 0, 0, 0, 0, 1], [1, 0, 0, 0, 0, 0, 0]]]) = 1 :=
  (bin_percent_partition [[[0, 0, 0, 0, 0, 0, 1], [1, 0, 0, 0, 0, 0, 0]]]
    (by
      intro s hs v hv
      rw [List.mem_singleton] at hs
      subst hs
      simp at hv
      rcases hv with rfl | rfl <;> rfl)
    (by simp [argmax2])).2.2.2

/-- Helper: combining two elementwise `zipWith`s over the same lists into one
map over the zipped list. -/
theorem zipWith_zipWith_to_map {α β : Type} (f g : α → β → ℚ) (F : ℚ → ℚ → ℝ) :
    ∀ (A : List α) (B : List β),
      List.zipWith (fun n d => F n d) (List.zipWith f A B) (List.zipWith g A B)
        = (A.zip B).map (fun p => F (f p.1 p.2) (g p.1 p.2)) := by
  intro A
  induction A with
  | nil => intro B; simp
  | cons a A ih =>
      intro B
      cases B with
      | nil => simp
      | cons b B => simp [ih]

/-- Helper: a dot product of centered rows as a single `zipWith`. -/
theorem dotQ_center (a b : List ℚ) (mA mB : ℚ) :
    dotQ (a.map (fun x => x - mA)) (b.map (fun y => y - mB))
      = (List.zipWith (fun x y => (x - mA) * (y - mB)) a b).sum := by
  rw [dotQ, List.zipWith_map]

/-- Helper: the squared-sum of a centered row written with squares. -/
theorem sqSum_center (a : List ℚ) (m : ℚ) :
    sqSum (a.map (fun x => x - m)) = (a.map (fun x => (x - m) ^ 2)).sum := by
  rw [sqSum, List.map_map]
  simp only [Function.comp_def, pow_two]

/-- Helper: the double dot product of centered samples as nested `zipWith`s. -/
theorem dot2_center (s1 s2 : List (List ℚ)) (m1 m2 : ℚ) :
    dot2 (s1.map (fun r => r.map (fun a => a - m1)))
        (s2.map (fun r => r.map (fun b => b - m2)))
      = (List.zipWith (fun r1 r2 => (List.zipWith (fun a b =>
          (a - m1) * (b - m2)) r1 r2).sum) s1 s2).sum := by
  rw [dot2, List.zipWith_map]
  have hfg : (fun (r1 r2 : List ℚ) => dotQ (r1.map (fun a => a - m1))
        (r2.map (fun b => b - m2)))
      = fun r1 r2 => (List.zipWith (fun a b =>
          (a - m1) * (b - m2)) r1 r2).sum := by
    funext r1 r2
    exact dotQ_center r1 r2 m1 m2
  rw [hfg]

/-- Helper: the double squared-sum of a centered sample written with squares. -/
theorem sqSum2_center (s : List (List ℚ)) (m : ℚ) :
    sqSum2 (s.map (fun r => r.map (fun a => a - m)))
      = (s.map (fun r => (r.map (fun a => (a - m) ^ 2)).sum)).sum := by
  rw [sqSum2, List.map_map]
  have hfg : (sqSum ∘ fun (r : List ℚ) => r.map (fun a => a - m))
      = fun r => (r.map (fun a => (a - m) ^ 2)).sum := by
    funext r
    exact sqSum_center r m
  rw [hfg]

/-- Claim C3: the metric `pearson_corr` equals the claimed statistic: the mean
over samples of the centered cross-product sum of the argmax label sequences,
divided by the square root of the product of the centered square sums plus
`1e-12`. -/
theorem pearson_corr_spec (yt yp : T3) :
    pearson_corr yt yp = specPearsonCorr yt yp := by
  have hN : corrN yt yp = List.zipWith (fun a b =>
      dotQ (a.map (fun x => x - meanQ (labels yt).flatten))
        (b.map (fun y => y - meanQ (labels yp).flatten)))
      (labels yt) (labels yp) := by
    rw [corrN]
    simp only [ctrLabels]
    rw [List.zipWith_map]
  have hD : corrD yt yp = List.zipWith (fun a b =>
      sqSum (a.map (fun x => x - meanQ (labels yt).flatten))
        * sqSum (b.map (fun y => y - meanQ (labels yp).flatten)))
      (labels yt) (labels yp) := by
    rw [corrD]
    simp only [ctrLabels]
    rw [List.zipWith_map]
  rw [pearson_corr, hN, hD, zipWith_zipWith_to_map, specPearsonCorr]
  congr 1
  apply List.map_congr_left
  intro p _
  rw [dotQ_center, sqSum_center, sqSum_center]

/-- Counterexample for claim C4 as stated: at
`y_true = y_pred = [[[4, 3]]]` the loss differs from the negated own-mean
Pearson statistic, because `pearson_loss` centers the raw tensors by the mean
of their argmax labels (here 0), not by the tensors' own mean (here 7/2). -/
theorem pearson_loss_claim_counterexample :
    pearson_loss [[[4, 3]]] [[[4, 3]]] ≠ claimNegPearson [[[4, 3]]] [[[4, 3]]] := by
  have h1 : pearson_loss [[[4, 3]]] [[[4, 3]]]
      = -((25 : ℝ) / (Real.sqrt 625 + eps)) := by
    norm_num [pearson_loss, lossN, lossD, ctr3, lossMu, labels, argmax2,
      argmaxQ, argmaxAux, meanQ, dot2, dotQ, sqSum2, sqSum, meanR]
  have h2 : claimNegPearson [[[4, 3]]] [[[4, 3]]]
      = -(((1 : ℝ) / 2) / (Real.sqrt (1 / 4) + eps)) := by
    norm_num [claimNegPearson, meanQ, meanR]
  rw [h1, h2, show (625 : ℝ) = 25 ^ 2 by norm_num,
    Real.sqrt_sq (by norm_num : (0 : ℝ) ≤ 25),
    show (1 / 4 : ℝ) = (1 / 2) ^ 2 by norm_num,
    Real.sqrt_sq (by norm_num : (0 : ℝ) ≤ 1 / 2), eps]
  norm_num

/-- Claim C4, amended: `pearson_loss` equals the negated mean over samples of
the cross-product sum of the tensors centered by the means of their respective
argmax label sequences, divided by the square root of the product of the
corresponding centered square sums plus `1e-12`; this is the Pearson
correlation of the sequences only when those label means coincide with the
tensors' own means. -/
theorem pearson_loss_centering (yt yp : T3) :
    pearson_loss yt yp = specPearsonLoss yt yp := by
  have hN : lossN yt yp = List.zipWith (fun s1 s2 =>
      dot2 (s1.map (fun r => r.map (fun a => a - lossMu yt)))
        (s2.map (fun r => r.map (fun b => b - lossMu yp)))) yt yp := by
    rw [lossN]
    simp only [ctr3]
    rw [List.zipWith_map]
  have hD : lossD yt yp = List.zipWith (fun s1 s2 =>
      sqSum2 (s1.map (fun r => r.map (fun a => a - lossMu yt)))
        * sqSum2 (s2.map (fun r => r.map (fun b => b - lossMu yp)))) yt yp := by
    rw [lossD]
    simp only [ctr3]
    rw [List.zipWith_map]
  rw [pearson_loss, hN, hD, zipWith_zipWith_to_map, specPearsonLoss]
  congr 1
  congr 1
  apply List.map_congr_left
  intro p _
  rw [dot2_center, sqSum2_center, sqSum2_center]
